import Mathlib

/-!
Verification model of the reddit-wallpaper-app fetch aggregator
(`src/scripts/redditfetch.js`) and the favorites storage
(`src/components/favorites-storage.ts`).

The JavaScript aggregator `fetchExtendedWallpapers` is embedded as a pure
function.  Effects are made explicit:

* the network is an oracle `net : Request → Outcome` (deterministic per
  request; a failed fetch — timeout, non-2xx status, exception — is the
  `Outcome.failure` constructor, a JSON payload without a `data.children`
  array is `Outcome.malformed`);
* the in-memory response cache (`apiCache`, a JS `Map`) is threaded through
  explicitly as an insertion-ordered association list;
* wall-clock time (`Date.now()`) is a `Nat` parameter (milliseconds);
* every network request, cache read and cache write is recorded in an event
  trace, so "no network call occurs" is a statement about the trace.

Tasks of one call are executed in task order.  The JS code runs them in
batches of 5 with `Promise.all`, but result collection is in task order
(batch order, then per-batch order), which the sequential model reproduces
exactly; the cache interleaving inside a batch is linearized task by task.

JS `Array.prototype.sort` (ES2019+) is specified to be stable; the unique
stable sort by the comparator `(a, b) => (b.score||0) - (a.score||0)` is
modelled by Mathlib's stable `List.insertionSort` with the total preorder
`scoreGe`.

Image dimensions coming from the upstream API are non-negative integers and
are modelled as `Nat`; scores may be negative and are `Int`.
-/

/-! ### Character-list string helpers

`String.prototype.includes`, the `/\.(jpe?g|png|webp)$/i` test, the global
replacement of `&amp;` by `&`, and `trim` are modelled on `List Char` by
structural recursion so that every definition evaluates by kernel
reduction. -/
/-- Decides whether `pat` occurs at the start of `l`. -/
def prefixMatch : List Char → List Char → Bool
  | [], _ => true
  | _ :: _, [] => false
  | a :: as, b :: bs => a == b && prefixMatch as bs

/-- Decides whether `pat` occurs somewhere inside `l`
(model of `String.prototype.includes`). -/
def subListOf (pat : List Char) : List Char → Bool
  | [] => prefixMatch pat []
  | c :: rest => prefixMatch pat (c :: rest) || subListOf pat rest

/-- Model of `s.includes(pat)`. -/
def containsStr (s pat : String) : Bool := subListOf pat.data s.data

/-- Decides whether `pat` occurs at the end of `l`. -/
def suffixMatch (pat l : List Char) : Bool := prefixMatch pat.reverse l.reverse

/-- Model of the case-insensitive test `/\.(jpe?g|png|webp)$/i.test(u)`. -/
def hasImageExt (u : String) : Bool :=
  let low := u.data.map Char.toLower
  suffixMatch (".jpg").data low || suffixMatch (".jpeg").data low ||
  suffixMatch (".png").data low || suffixMatch (".webp").data low

/-- One pass of the global replacement of `&amp;` by `&`
(model of `url.replace(/&amp;/g, "&")`). -/
def replaceAmpChars : List Char → List Char
  | '&' :: 'a' :: 'm' :: 'p' :: ';' :: rest => '&' :: replaceAmpChars rest
  | c :: rest => c :: replaceAmpChars rest
  | [] => []

/-- Model of `s.replace(/&amp;/g, "&")`. -/
def stripAmp (s : String) : String := ⟨replaceAmpChars s.data⟩

/-- Model of ASCII whitespace for `trim`. -/
def isWhite (c : Char) : Bool := c == ' ' || c == '\t' || c == '\n' || c == '\r'

/-- Model of `s.trim()`. -/
def trimStr (s : String) : String :=
  ⟨((s.data.dropWhile isWhite).reverse.dropWhile isWhite).reverse⟩

/-- Model of the JS truthiness normalization `x || null` on an optional
string: `undefined`, `null` and the empty string all collapse to `null`. -/
def normTok : Option String → Option String
  | some s => if s = "" then none else some s
  | none => none

/-! ### Raw upstream post data

Shape of one element of `json.data.children[i].data` as far as the two
filter/map pipelines inspect it.  The `.map(c => c.data)` unwrapping is
implicit: task outcomes carry the list of `data` objects directly. -/
/-- Model of `p.preview.images[0].resolutions[i]`. -/
structure RawResolution where
  url : Option String
  width : Nat
deriving DecidableEq

/-- Model of `p.preview.images[0].source`. -/
structure RawSource where
  url : Option String
  width : Nat
  height : Nat
deriving DecidableEq

/-- Model of `p.preview.images[0]`; an absent `preview`, absent `images` or
empty `images` array is `none` at the use sites. -/
structure RawImage where
  source : RawSource
  resolutions : List RawResolution
deriving DecidableEq

/-- Model of `p.media_metadata[firstKey].s`. -/
structure MediaS where
  u : Option String
  x : Nat
  y : Nat
deriving DecidableEq

/-- Model of one entry of `p.media_metadata` (only the `s` member is used;
`none` models an entry without `s`). -/
structure MediaItem where
  s : Option MediaS
deriving DecidableEq

/-- Model of one post object `p = c.data` from the listing JSON. -/
structure RawPost where
  id : String
  post_hint : Option String
  preview : Option RawImage
  over_18 : Bool
  url : String
  title : Option String
  created_utc : Int
  score : Option Int
  author : String
  permalink : String
  is_gallery : Bool
  media_metadata : Option (List MediaItem)
  num_comments : Option Int
deriving DecidableEq

/-! ### Normalized wallpaper records -/
/-- Record produced by the strict revision's `.map` (first
`fetchExtendedWallpapers` in the file). -/
structure Image where
  id : String
  title : String
  url : String
  width : Nat
  height : Nat
  preview : Option String
  subreddit : String
  time : String
  postType : String
  created_utc : Int
  score : Int
  author : String
  permalink : String
deriving DecidableEq

/-- Model of `p.title?.trim() || 'Untitled'`. -/
def titleOf (t : Option String) : String :=
  match t with
  | none => "Untitled"
  | some s => let s' := trimStr s; if s' = "" then "Untitled" else s'

/-- Model of `p.score || 0` (an absent score defaults to `0`). -/
def scoreOf (s : Option Int) : Int := s.getD 0

/-- Strict revision filter (`redditfetch.js` lines 92–104): image hint,
preview source URL present, not adult, no GIF URL, direct image extension,
and both source dimensions at least 150. -/
def strictFilter (p : RawPost) : Bool :=
  match p.post_hint with
  | none => false
  | some h =>
    (h == ("image")) &&
    (match p.preview with
     | none => false
     | some img =>
       (match img.source.url with
        | none => false
        | some su =>
          (su != ("")) &&
          !p.over_18 &&
          !(containsStr p.url ("gif")) && !(containsStr p.url ("gifv")) &&
          hasImageExt p.url &&
          !(decide (img.source.width < 150) || decide (img.source.height < 150))))

/-- Strict revision mapping (`redditfetch.js` lines 105–122); only invoked
on posts that passed `strictFilter`, so `p.preview` is present there. -/
def strictMap (subreddit time postType : String) (p : RawPost) : Image :=
  let img := p.preview.getD ⟨⟨none, 0, 0⟩, []⟩
  let source := img.source
  { id := p.id
    title := titleOf p.title
    url := stripAmp p.url
    width := source.width
    height := source.height
    preview :=
      match img.resolutions.head? with
      | none => none
      | some r =>
        match r.url with
        | none => none
        | some u => normTok (some (stripAmp u))
    subreddit := subreddit
    time := time
    postType := postType
    created_utc := p.created_utc
    score := scoreOf p.score
    author := p.author
    permalink := p.permalink }

/-- Strict revision filter-then-map pipeline over `json.data.children`. -/
def processStrict (subreddit time postType : String) (children : List RawPost) : List Image :=
  (children.filter strictFilter).map (strictMap subreddit time postType)

/-! ### Deduplication and ranking -/
/-- Seen-set deduplication by `id` (`redditfetch.js` lines 172–179), with
the set of already seen ids made explicit. -/
def dedupGo (seen : List String) : List Image → List Image
  | [] => []
  | img :: rest =>
    if img.id ∈ seen then dedupGo seen rest
    else img :: dedupGo (img.id :: seen) rest

/-- Model of the dedup pass over the concatenated image lists. -/
def dedupById (l : List Image) : List Image := dedupGo [] l

/-- The total preorder of the comparator
`(a, b) => (b.score||0) - (a.score||0)`: `a` may come before `b` exactly
when `b.score ≤ a.score`. -/
def scoreGe (a b : Image) : Prop := b.score ≤ a.score

instance : DecidableRel scoreGe :=
  fun a b => inferInstanceAs (Decidable (b.score ≤ a.score))

instance : IsTotal Image scoreGe :=
  ⟨fun a b => show b.score ≤ a.score ∨ a.score ≤ b.score from Int.le_total _ _⟩

instance : IsTrans Image scoreGe :=
  ⟨fun _ _ _ h₁ h₂ => le_trans h₂ h₁⟩

/-- Model of the stable `dedupedImages.sort((a, b) => (b.score||0) -
(a.score||0))` (`redditfetch.js` lines 181–182). -/
def sortByScoreDesc (l : List Image) : List Image := l.insertionSort scoreGe

/-! ### The response cache

`apiCache` is a JS `Map`, i.e. an insertion-ordered association of cache
keys to entries; `Map.set` on an existing key updates in place, on a fresh
key appends; `Map.delete` removes; `apiCache.keys().next().value` is the
first key in insertion order. -/
/-- One task's stored payload `{images, after}`. -/
structure TaskData where
  images : List Image
  after : Option String
deriving DecidableEq

/-- Model of a cache entry `{data, timestamp}` (`timestamp` in ms). -/
structure CacheEntry where
  data : TaskData
  timestamp : Nat
deriving DecidableEq

/-- The `apiCache` map in insertion order. -/
abbrev Cache := List (String × CacheEntry)

/-- The cache TTL `CACHE_DURATION = 5 * 60 * 1000` ms. -/
def CACHE_DURATION : Nat := 5 * 60 * 1000

/-- Lookup of the value stored under `k` (JS `Map.get`). -/
def assocFind (k : String) : List (String × α) → Option α
  | [] => none
  | (k', v) :: rest => if k' = k then some v else assocFind k rest

/-- JS `Map.set`: update an existing key in place, else append. -/
def mapSet (c : List (String × α)) (k : String) (v : α) : List (String × α) :=
  match c with
  | [] => [(k, v)]
  | (k', v') :: rest => if k' = k then (k, v) :: rest else (k', v') :: mapSet rest k v

/-- JS `Map.delete`: remove the binding of `k` (keys are unique in a JS map,
so removing the first occurrence is removing the binding). -/
def mapDelete (c : List (String × α)) (k : String) : List (String × α) :=
  match c with
  | [] => []
  | (k', v') :: rest => if k' = k then rest else (k', v') :: mapDelete rest k

/-- Model of `createCacheKey` (`redditfetch.js` lines 219–221). -/
def createCacheKey (subreddit time postType : String) (afterToken : Option String) : String :=
  subreddit ++ "_" ++ time ++ "_" ++ postType ++ "_" ++
    (match normTok afterToken with
     | some s => s
     | none => "null")

/-- Model of `isCacheValid` (`redditfetch.js` lines 226–228): the entry is
younger than `CACHE_DURATION`.  (`Date.now() - timestamp` is truncated
subtraction on `Nat`; a timestamp in the future is valid either way.) -/
def isCacheValid (now : Nat) (e : CacheEntry) : Bool :=
  now - e.timestamp < CACHE_DURATION

/-- Model of `getCachedResponse` (`redditfetch.js` lines 233–243): returns
the stored data when the entry is valid; an expired entry is evicted and
the lookup is a miss. -/
def getCachedResponse (now : Nat) (k : String) (c : Cache) : Option TaskData × Cache :=
  match assocFind k c with
  | some e => if isCacheValid now e then (some e.data, c) else (none, mapDelete c k)
  | none => (none, c)

/-- Model of `setCachedResponse` (`redditfetch.js` lines 248–259): when the
map holds more than 50 entries, delete the first (oldest) key, then store
the new entry. -/
def setCachedResponse (now : Nat) (k : String) (d : TaskData) (c : Cache) : Cache :=
  let c1 :=
    if 50 < c.length then
      match c with
      | [] => []
      | (k0, _) :: _ => mapDelete c k0
    else c
  mapSet c1 k ⟨d, now⟩

/-! ### One fetch task -/
/-- One `(subreddit, timeRange)` source pair. -/
structure Source where
  sub : String
  time : String
deriving DecidableEq

/-- Model of the helper `afterKey = (sub, time) => sub + "_" + time`. -/
def afterKey (sub time : String) : String := sub ++ "_" ++ time

/-- The listing request a task issues (subreddit, time range, post type,
clamped limit, optional pagination cursor). -/
structure Request where
  sub : String
  time : String
  postType : String
  limit : Int
  cursor : Option String
deriving DecidableEq

/-- Upstream behavior for one request: a per-task failure (timeout, non-2xx
status or any exception), a JSON payload without a `data.children` array,
or a listing of posts together with `json.data.after`. -/
inductive Outcome where
  | failure
  | malformed
  | success (children : List RawPost) (after : Option String)
deriving DecidableEq

/-- Observable effects of a call, in order of occurrence. -/
inductive Event where
  | cacheRead (key : String)
  | netRequest (req : Request)
  | cacheWrite (key : String)
deriving DecidableEq

/-- Result of one task: `{key, images, after}`. -/
structure TaskResult where
  key : String
  images : List Image
  after : Option String
deriving DecidableEq

/-- Model of one task created by `createFetchTask` (`redditfetch.js` lines
41–142), strict revision: cache lookup for first-page requests, fetch with
per-task error isolation, filter/map pipeline, cache write on first-page
success.  Returns the task result, the evolved cache and the event trace. -/
def runTask (net : Request → Outcome) (now : Nat) (postType : String) (limit : Int)
    (afterArg : String → Option String) (s : Source) (c : Cache) :
    TaskResult × Cache × List Event :=
  let key := afterKey s.sub s.time
  let tok := normTok (afterArg key)
  match tok with
  | none =>
    let ck := createCacheKey s.sub s.time postType none
    let looked := getCachedResponse now ck c
    match looked.1 with
    | some d => (⟨key, d.images, d.after⟩, looked.2, [Event.cacheRead ck])
    | none =>
      let req : Request := ⟨s.sub, s.time, postType, limit, none⟩
      match net req with
      | Outcome.failure =>
        (⟨key, [], none⟩, looked.2, [Event.cacheRead ck, Event.netRequest req])
      | Outcome.malformed =>
        (⟨key, [], none⟩, looked.2, [Event.cacheRead ck, Event.netRequest req])
      | Outcome.success children a =>
        let d : TaskData := ⟨processStrict s.sub s.time postType children, normTok a⟩
        (⟨key, d.images, d.after⟩, setCachedResponse now ck d looked.2,
         [Event.cacheRead ck, Event.netRequest req, Event.cacheWrite ck])
  | some t =>
    let req : Request := ⟨s.sub, s.time, postType, limit, some t⟩
    match net req with
    | Outcome.failure => (⟨key, [], none⟩, c, [Event.netRequest req])
    | Outcome.malformed => (⟨key, [], none⟩, c, [Event.netRequest req])
    | Outcome.success children a =>
      (⟨key, processStrict s.sub s.time postType children, normTok a⟩, c,
       [Event.netRequest req])

/-- Runs the tasks of one call in task order, threading the cache and
accumulating the event trace.  (The JS code runs them in batches of 5; the
collected results are in task order either way.) -/
def runTasks (net : Request → Outcome) (now : Nat) (postType : String) (limit : Int)
    (afterArg : String → Option String) :
    List Source → Cache → List TaskResult × Cache × List Event
  | [], c => ([], c, [])
  | s :: rest, c =>
    let one := runTask net now postType limit afterArg s c
    let more := runTasks net now postType limit afterArg rest one.2.1
    (one.1 :: more.1, more.2.1, one.2.2 ++ more.2.2)

/-! ### The aggregator -/
/-- Model of `Math.min(Math.max(limit, 10), 100)`. -/
def optLimit (limit : Int) : Int := min (max limit 10) 100

/-- The cross product of subreddits and time ranges, in task-creation order
(`for (const subreddit of subreddits) for (const time of timeRanges)`). -/
def sourcesOf (subs trs : List String) : List Source :=
  subs.flatMap (fun sub => trs.map (fun t => ⟨sub, t⟩))

/-- Model of the loop `afterTokens[result.key] = result.after` over a plain
JS object: later assignments to the same key overwrite in place. -/
def buildAfterMap (rs : List TaskResult) : List (String × Option String) :=
  rs.foldl (fun m r => mapSet m r.key r.after) []

/-- Concatenation `allImages.push(...result.images)` in task order. -/
def allImagesOf (rs : List TaskResult) : List Image :=
  rs.flatMap (fun r => r.images)

/-- Aggregate result `{images, after}`. -/
structure AggResult where
  images : List Image
  after : List (String × Option String)
deriving DecidableEq

/-- Model of `fetchExtendedWallpapers` (`redditfetch.js` lines 19–190,
strict revision; the permissive revision differs only in its per-post
filter/map pipeline, not in the aggregation steps modelled here): empty
input short-circuit, limit clamping, per-source tasks, concatenation,
seen-set dedup, stable sort by score descending. -/
def fetchExtendedWallpapers (net : Request → Outcome) (now : Nat)
    (subreddits timeRanges : List String) (postType : String) (limit : Int)
    (afterArg : String → Option String) (c : Cache) :
    AggResult × Cache × List Event :=
  if subreddits.isEmpty then (⟨[], []⟩, c, [])
  else
    let t := runTasks net now postType (optLimit limit) afterArg
      (sourcesOf subreddits timeRanges) c
    (⟨sortByScoreDesc (dedupById (allImagesOf t.1)), buildAfterMap t.1⟩, t.2.1, t.2.2)

/-! ### Permissive revision pipeline

The second `fetchExtendedWallpapers` revision in `redditfetch.js` (after
the document separator) differs from the strict one only in the per-post
filter/map pipeline (lines 415–519 of the file); aggregation, dedup, sort,
cache and error isolation are identical.  The pipeline is modelled here
standalone. -/
/-- Record produced by the permissive revision's `.map` (it adds
`is_gallery` and `num_comments` to the strict record shape). -/
structure ImageP where
  id : String
  title : String
  url : String
  width : Nat
  height : Nat
  preview : Option String
  subreddit : String
  time : String
  postType : String
  created_utc : Int
  score : Int
  author : String
  permalink : String
  is_gallery : Bool
  num_comments : Int
deriving DecidableEq

/-- Truthiness of `p.preview?.images?.[0]?.source?.url`. -/
def previewSourceUrlPresent (p : RawPost) : Bool :=
  match p.preview with
  | none => false
  | some img =>
    match img.source.url with
    | none => false
    | some su => su != ("")

/-- Permissive revision first filter (`redditfetch.js` lines 417–437):
admit image-hinted posts, direct image URLs, gallery or media posts with a
preview, and Reddit/imgur-hosted posts with a preview; drop videos. -/
def permFilter1 (p : RawPost) : Bool :=
  if p.post_hint == some ("image") then true
  else if p.post_hint == some ("hosted:video") then false
  else if p.post_hint == some ("rich:video") then false
  else if (p.url != ("")) && hasImageExt p.url then true
  else if p.is_gallery && previewSourceUrlPresent p then true
  else if p.media_metadata.isSome && previewSourceUrlPresent p then true
  else if previewSourceUrlPresent p then
    containsStr p.url ("i.redd.it") || containsStr p.url ("i.imgur.com") ||
    containsStr p.url ("imgur.com")
  else false

/-- The preview source dimensions the permissive second filter inspects
(`0` when there is no preview source, as in the JS `let width = 0`). -/
def permDims (p : RawPost) : Nat × Nat :=
  match p.preview with
  | none => (0, 0)
  | some img => (img.source.width, img.source.height)

/-- Permissive revision second filter (`redditfetch.js` lines 438–454): not
adult, no GIF URL, and when both preview dimensions are positive they must
both reach 100. -/
def permFilter2 (p : RawPost) : Bool :=
  !p.over_18 &&
  !(containsStr p.url ("gif")) && !(containsStr p.url ("gifv")) &&
  (let d := permDims p
   !(decide (0 < d.1) && decide (0 < d.2) &&
     (decide (d.1 < 100) || decide (d.2 < 100))))

/-- Model of the preview selection `previews.find(r => r.width >= 300 &&
r.width <= 600) || previews[Math.floor(previews.length / 2)] ||
previews[0]`. -/
def goodPreviewOf (previews : List RawResolution) : Option RawResolution :=
  match previews.find? (fun r => decide (300 ≤ r.width) && decide (r.width ≤ 600)) with
  | some r => some r
  | none =>
    match previews[previews.length / 2]? with
    | some r => some r
    | none => previews.head?

/-- Permissive revision mapping (`redditfetch.js` lines 455–519): prefer
the preview source URL, override with the first gallery media item, fall
back to the direct URL with default dimensions, and default zero
dimensions to 1920×1080. -/
def permMap (subreddit time postType : String) (p : RawPost) : ImageP :=
  let st0 : String × Nat × Nat × Option String := (p.url, 0, 0, none)
  let st1 :=
    match p.preview with
    | none => st0
    | some img =>
      let u1 :=
        match img.source.url with
        | none => p.url
        | some su => if su = "" then p.url else stripAmp su
      let pv :=
        if img.resolutions.length > 0 then
          match goodPreviewOf img.resolutions with
          | none => none
          | some r =>
            match r.url with
            | none => none
            | some u => some (stripAmp u)
        else none
      (u1, img.source.width, img.source.height, pv)
  let st2 :=
    if p.is_gallery then
      match p.media_metadata with
      | none => st1
      | some items =>
        match items.head? with
        | none => st1
        | some item =>
          match item.s with
          | none => st1
          | some s =>
            let u2 :=
              match s.u with
              | none => st1.1
              | some mu => if stripAmp mu = "" then st1.1 else stripAmp mu
            (u2, (if s.x = 0 then st1.2.1 else s.x),
             (if s.y = 0 then st1.2.2.1 else s.y), st1.2.2.2)
    else st1
  let st3 :=
    if st2.2.1 = 0 && st2.2.2.1 = 0 && hasImageExt p.url then
      (p.url, 1920, 1080, st2.2.2.2)
    else st2
  { id := p.id
    title := titleOf p.title
    url := st3.1
    width := if st3.2.1 = 0 then 1920 else st3.2.1
    height := if st3.2.2.1 = 0 then 1080 else st3.2.2.1
    preview := st3.2.2.2
    subreddit := subreddit
    time := time
    postType := postType
    created_utc := p.created_utc
    score := scoreOf p.score
    author := p.author
    permalink := p.permalink
    is_gallery := p.is_gallery
    num_comments := scoreOf p.num_comments }

/-- Permissive revision filter-filter-map pipeline. -/
def processPermissive (subreddit time postType : String) (children : List RawPost) :
    List ImageP :=
  ((children.filter permFilter1).filter permFilter2).map (permMap subreddit time postType)

/-! ### Favorites storage

Model of `src/components/favorites-storage.ts`.  The persisted favorites
blob is the stored list itself; a well-formed stored list is one whose
entries have the typed `Wallpaper` shape, for which the runtime validation
in `loadFavorites` (`typeof item.id === 'string'` and so on) accepts every
entry.  Storage reads and writes are assumed to succeed, matching the
claim's assumption. -/
/-- Model of the `Wallpaper` type of `favorites-storage.ts`. -/
structure Wallpaper where
  id : String
  title : String
  url : String
  width : Int
  height : Int
  preview : Option String
  subreddit : Option String
  time : Option String
  postType : Option String
  created_utc : Option Int
  score : Option Int
  author : Option String
  permalink : Option String
deriving DecidableEq

/-- Model of `loadFavorites` (`favorites-storage.ts` lines 31–51) on a
well-formed stored list: every typed entry passes the item validation, so
the whole parsed list is returned. -/
def loadFavorites (stored : List Wallpaper) : List Wallpaper := stored

/-- Model of `toggleFavorite` (`favorites-storage.ts` lines 54–67): load,
then remove every entry with the wallpaper's id if one exists, else prepend
the wallpaper; the returned list is also the one persisted. -/
def toggleFavorite (w : Wallpaper) (stored : List Wallpaper) : List Wallpaper :=
  let favs := loadFavorites stored
  match favs.find? (fun x => x.id == w.id) with
  | some _ => favs.filter (fun x => x.id != w.id)
  | none => w :: favs

/-- Model of `isFavorite` (`favorites-storage.ts` lines 70–73). -/
def isFavorite (i : String) (stored : List Wallpaper) : Bool :=
  (loadFavorites stored).any (fun x => x.id == i)

/-- A concrete cache of 50 distinct keys (the key of entry `i` is the
string of `i` repetitions of `x`). -/
def cache50 : Cache :=
  (List.range 50).map (fun i => (⟨List.replicate i 'x'⟩, ⟨⟨[], none⟩, 0⟩))

/-- Concrete first-page scenario used by witnesses: a valid image post. -/
def postW (i : String) (sc : Int) : RawPost :=
  ⟨i, some ("image"), some ⟨⟨some ("http://img/a.jpg"), 200, 300⟩, []⟩, false,
   ("http://img/a.jpg"), some ("T"), 0, some sc, ("au"), ("pl"), false, none, none⟩

/-- A network in which every request yields the same three posts, two of
which share the id `x` (scores 1 and 9, the first occurrence scoring
lower). -/
def netW : Request → Outcome :=
  fun _ => Outcome.success [postW ("x") 1, postW ("y") 5, postW ("x") 9] none

/-- The all-first-page cursor map. -/
def aftNoneW : String → Option String := fun _ => none

/-- A network yielding two distinct-id posts with equal scores. -/
def netW2 : Request → Outcome :=
  fun _ => Outcome.success [postW ("x") 5, postW ("y") 5] none

/-- A gallery post whose preview source is 500×500 (passing the permissive
size filter) but whose first gallery media item is 50×50, which the
permissive map uses for the returned record. -/
def galleryPost : RawPost :=
  ⟨("g1"), none, some ⟨⟨some ("http://p/prev.png"), 500, 500⟩, []⟩, false,
   ("https://www.reddit.com/gallery/g1"), some ("G"), 0, some 10, ("au"), ("pl"),
   true, some [⟨some ⟨some ("http://m/full.png"), 50, 50⟩⟩], none⟩

/-- A video-file post (`.mp4` URL, no `post_hint`) with media metadata and
a preview source: the permissive first filter admits it through the
`media_metadata && preview` branch, since only the `hosted:video` and
`rich:video` hints are ever excluded. -/
def mp4Post : RawPost :=
  ⟨("v1"), none, some ⟨⟨some ("http://v/clip.mp4"), 500, 500⟩, []⟩, false,
   ("http://v/clip.mp4"), some ("V"), 0, some 3, ("au"), ("pl"),
   false, some [], none⟩

/-! ### Task characterization -/
/-- Images contributed by a task outcome (strict pipeline). -/
def imagesOfOutcome (sub time pt : String) : Outcome → List Image
  | Outcome.failure => []
  | Outcome.malformed => []
  | Outcome.success ch _ => processStrict sub time pt ch

/-- Cursor resulting from a task outcome (`json.data.after || null`; failure
and malformed data both yield `null`). -/
def cursorOfOutcome : Outcome → Option String
  | Outcome.failure => none
  | Outcome.malformed => none
  | Outcome.success _ a => normTok a

/-- The request the task for `s` issues when it is not served from the
cache. -/
def reqOf (pt : String) (lim : Int) (aft : String → Option String) (s : Source) : Request :=
  ⟨s.sub, s.time, pt, lim, normTok (aft (afterKey s.sub s.time))⟩

/-- The task result produced when the task is not served from the cache. -/
def naturalResult (net : Request → Outcome) (pt : String) (lim : Int)
    (aft : String → Option String) (s : Source) : TaskResult :=
  ⟨afterKey s.sub s.time,
   imagesOfOutcome s.sub s.time pt (net (reqOf pt lim aft s)),
   cursorOfOutcome (net (reqOf pt lim aft s))⟩

/-! ### C3 — per-task failure isolation -/
/-- A network on which every request for subreddit `a_b` succeeds with
cursor `tok` and every other request fails. -/
def netC3 : Request → Outcome :=
  fun r => if r.sub = ("a_b") then Outcome.success [] (some ("tok")) else Outcome.failure

/-- A network failing exactly for subreddit `a`. -/
def netC3W : Request → Outcome :=
  fun r => if r.sub = ("a") then Outcome.failure
           else Outcome.success [postW ("y") 5] (some ("t2"))

/-- The all-continuation cursor map used by the C6 witness. -/
def aftContW : String → Option String := fun _ => some ("cur")

/-- A cache holding one entry, written at time 0, for the C6 witness. -/
def staleCacheW : Cache :=
  [(createCacheKey ("a") ("d") ("top") none, ⟨⟨[], none⟩, 0⟩)]

/-! ## Theorems -/

theorem sortByScoreDesc_perm (l : List Image) : List.Perm (sortByScoreDesc l) l :=
  List.perm_insertionSort scoreGe l

theorem sortByScoreDesc_sorted (l : List Image) :
    (sortByScoreDesc l).Pairwise scoreGe :=
  List.sorted_insertionSort scoreGe l

/-! ### Basic dedup lemmas -/
theorem dedupGo_mem_spec :
    ∀ (seen : List String) (l : List Image) (img : Image),
      img ∈ dedupGo seen l →
      img.id ∉ seen ∧ l.find? (fun x => x.id == img.id) = some img := by
  intro seen l
  induction l generalizing seen with
  | nil => intro img h; simp [dedupGo] at h
  | cons x rest ih =>
    intro img h
    by_cases hx : x.id ∈ seen
    · simp only [dedupGo, if_pos hx] at h
      obtain ⟨hnot, hfind⟩ := ih seen img h
      have hne : x.id ≠ img.id := fun he => hnot (he ▸ hx)
      refine ⟨hnot, ?_⟩
      rw [List.find?_cons_of_neg, hfind]
      simp [hne]
    · simp only [dedupGo, if_neg hx] at h
      rcases List.mem_cons.mp h with he | hm
      · subst he
        exact ⟨hx, by rw [List.find?_cons_of_pos] ; simp⟩
      · obtain ⟨hnot, hfind⟩ := ih (x.id :: seen) img hm
        have hne : x.id ≠ img.id := fun he => hnot (by simp [← he])
        refine ⟨fun hc => hnot (List.mem_cons_of_mem _ hc), ?_⟩
        rw [List.find?_cons_of_neg, hfind]
        simp [hne]

theorem dedupGo_pairwise (seen : List String) (l : List Image) :
    (dedupGo seen l).Pairwise (fun a b => a.id ≠ b.id) := by
  induction l generalizing seen with
  | nil => simp [dedupGo]
  | cons x rest ih =>
    by_cases hx : x.id ∈ seen
    · simpa [dedupGo, if_pos hx] using ih seen
    · simp only [dedupGo, if_neg hx]
      refine List.Pairwise.cons ?_ (ih (x.id :: seen))
      intro b hb
      have := (dedupGo_mem_spec (x.id :: seen) rest b hb).1
      exact fun he => this (by simp [← he])

theorem dedupById_pairwise (l : List Image) :
    (dedupById l).Pairwise (fun a b => a.id ≠ b.id) :=
  dedupGo_pairwise [] l

theorem dedupById_find? (l : List Image) (img : Image) (h : img ∈ dedupById l) :
    l.find? (fun x => x.id == img.id) = some img :=
  (dedupGo_mem_spec [] l img h).2

theorem dedupById_subset (l : List Image) : dedupById l ⊆ l := by
  intro img h
  exact List.mem_of_find?_eq_some (dedupById_find? l img h)

/-! ### C10 — toggleFavorite membership round-trip -/
/-- C10: for every wallpaper `w` and well-formed stored favorites list,
`toggleFavorite w` returns (and persists) a list containing an entry with
id `w.id` iff the loaded list did not, and toggling twice yields a list
whose set of ids equals the original's. -/
theorem c10_toggleFavorite_roundtrip (w : Wallpaper) (stored : List Wallpaper) :
    ((∃ x ∈ toggleFavorite w stored, x.id = w.id) ↔ ¬ ∃ x ∈ stored, x.id = w.id) ∧
    (∀ i : String,
      (∃ x ∈ toggleFavorite w (toggleFavorite w stored), x.id = i) ↔
        ∃ x ∈ stored, x.id = i) := by
  unfold toggleFavorite loadFavorites
  cases hf : stored.find? (fun x => x.id == w.id) with
  | none =>
    have habs : ∀ x ∈ stored, ¬ (x.id = w.id) := by
      intro x hx
      have := List.find?_eq_none.mp hf x hx
      simpa using this
    simp only [hf]
    have hfind2 : (w :: stored).find? (fun x => x.id == w.id) = some w := by
      rw [List.find?_cons_of_pos] ; simp
    simp only [hfind2]
    constructor
    · constructor
      · intro _
        rintro ⟨x, hx, hid⟩
        exact habs x hx hid
      · intro _
        exact ⟨w, List.mem_cons_self w stored, rfl⟩
    · intro i
      constructor
      · rintro ⟨x, hx, hid⟩
        rw [List.mem_filter] at hx
        rcases List.mem_cons.mp hx.1 with he | hm
        · subst he
          simp at hx
        · exact ⟨x, hm, hid⟩
      · rintro ⟨x, hx, hid⟩
        refine ⟨x, ?_, hid⟩
        rw [List.mem_filter]
        refine ⟨List.mem_cons_of_mem _ hx, ?_⟩
        simpa using fun he => habs x hx he
  | some y =>
    have hy : y.id = w.id := by simpa using List.find?_some hf
    have hym : y ∈ stored := List.mem_of_find?_eq_some hf
    simp only [hf]
    have hfind2 :
        (stored.filter (fun x => x.id != w.id)).find? (fun x => x.id == w.id) = none := by
      rw [List.find?_eq_none]
      intro x hx
      rw [List.mem_filter] at hx
      simpa using (by simpa using hx.2 : x.id ≠ w.id)
    simp only [hfind2]
    constructor
    · constructor
      · rintro ⟨x, hx, hid⟩
        rw [List.mem_filter] at hx
        exact absurd hid (by simpa using hx.2)
      · intro hno
        exact absurd ⟨y, hym, hy⟩ hno
    · intro i
      constructor
      · rintro ⟨x, hx, hid⟩
        rcases List.mem_cons.mp hx with he | hm
        · subst he
          exact ⟨y, hym, hy.trans hid⟩
        · rw [List.mem_filter] at hm
          exact ⟨x, hm.1, hid⟩
      · rintro ⟨x, hx, hid⟩
        by_cases hxw : x.id = w.id
        · exact ⟨w, List.mem_cons_self _ _, hxw ▸ hid⟩
        · refine ⟨x, List.mem_cons_of_mem _ ?_, hid⟩
          rw [List.mem_filter]
          exact ⟨hx, by simpa using hxw⟩

/-- Concrete instantiation of `c10_toggleFavorite_roundtrip`. -/
theorem c10_toggleFavorite_roundtrip_witness :
    ((∃ x ∈ toggleFavorite ⟨("a"), ("t"), ("u"), 1, 1, none, none, none, none,
        none, none, none, none⟩ [], x.id = ("a")) ↔
      ¬ ∃ x ∈ ([] : List Wallpaper), x.id = ("a")) ∧
    (∀ i : String,
      (∃ x ∈ toggleFavorite ⟨("a"), ("t"), ("u"), 1, 1, none, none, none, none,
          none, none, none, none⟩
          (toggleFavorite ⟨("a"), ("t"), ("u"), 1, 1, none, none, none, none,
            none, none, none, none⟩ []), x.id = i) ↔
        ∃ x ∈ ([] : List Wallpaper), x.id = i) :=
  c10_toggleFavorite_roundtrip _ []

/-! ### C4 — empty source list short-circuit -/
/-- C4: a call with an empty subreddits list returns `{images: [], after:
{}}` immediately, leaves the cache untouched and produces an empty event
trace — in particular no network request and no cache access occur. -/
theorem c4_empty_input_short_circuit (net : Request → Outcome) (now : Nat)
    (timeRanges : List String) (postType : String) (limit : Int)
    (afterArg : String → Option String) (c : Cache) :
    fetchExtendedWallpapers net now [] timeRanges postType limit afterArg c
      = (⟨[], []⟩, c, []) := rfl

/-! ### C8 — cache size bound on write -/
theorem mapSet_length_le (c : List (String × α)) (k : String) (v : α) :
    (mapSet c k v).length ≤ c.length + 1 := by
  induction c with
  | nil => simp [mapSet]
  | cons h t ih =>
    obtain ⟨k', v'⟩ := h
    by_cases hk : k' = k
    · simp [mapSet, hk]
    · simp only [mapSet, if_neg hk, List.length_cons]
      omega

/-- C8 counterexample: writing a fresh key into a cache holding exactly 50
entries triggers no eviction (the guard is `size > 50`) and leaves 51
entries, contradicting the claimed post-write bound of 50. -/
theorem c8_cache_write_counterexample :
    (setCachedResponse 0 ("fresh") ⟨[], none⟩ cache50).length = 51 ∧
    ¬ ((setCachedResponse 0 ("fresh") ⟨[], none⟩ cache50).length ≤ 50) := by
  constructor
  · decide
  · decide

/-- C8 amended: `setCachedResponse` evicts the single oldest entry (FIFO
order, the map's first key) exactly when the cache holds more than 50
entries, before storing; consequently every write preserves the bound of
at most 51 entries, and a write to a cache already over the 50-entry guard
does not grow it. -/
theorem c8_cache_write_bound (now : Nat) (k : String) (d : TaskData) (c : Cache) :
    (50 < c.length →
      ∀ k0 e0 rest, c = (k0, e0) :: rest →
        setCachedResponse now k d c = mapSet (mapDelete c k0) k ⟨d, now⟩) ∧
    (c.length ≤ 51 → (setCachedResponse now k d c).length ≤ 51) ∧
    (50 < c.length → (setCachedResponse now k d c).length ≤ c.length) := by
  refine ⟨?_, ?_, ?_⟩
  · intro hlen k0 e0 rest hc
    subst hc
    have hl : 50 < rest.length + 1 := by simpa using hlen
    simp [setCachedResponse, hl]
  · intro hle
    rcases c with _ | ⟨⟨k0, e0⟩, rest⟩
    · simp [setCachedResponse, mapSet]
    · by_cases hl : 50 < rest.length + 1
      · have h2 := mapSet_length_le rest k (⟨d, now⟩ : CacheEntry)
        simp only [List.length_cons] at hle
        simp [setCachedResponse, hl, mapDelete]
        omega
      · have h2 := mapSet_length_le ((k0, e0) :: rest) k (⟨d, now⟩ : CacheEntry)
        simp only [List.length_cons] at hle h2
        simp only [setCachedResponse, List.length_cons, if_neg hl]
        omega
  · intro hlen
    rcases c with _ | ⟨⟨k0, e0⟩, rest⟩
    · simp at hlen
    · have hl : 50 < rest.length + 1 := by simpa using hlen
      have h2 := mapSet_length_le rest k (⟨d, now⟩ : CacheEntry)
      simp [setCachedResponse, hl, mapDelete]
      omega

/-- Concrete instantiation of `c8_cache_write_bound` on a one-entry cache. -/
theorem c8_cache_write_bound_witness :
    ((50 < ([((""), (⟨⟨[], none⟩, 0⟩ : CacheEntry))] : Cache).length →
      ∀ k0 e0 rest, ([((""), (⟨⟨[], none⟩, 0⟩ : CacheEntry))] : Cache) = (k0, e0) :: rest →
        setCachedResponse 7 ("k") ⟨[], none⟩ [((""), ⟨⟨[], none⟩, 0⟩)]
          = mapSet (mapDelete [((""), ⟨⟨[], none⟩, 0⟩)] k0) ("k") ⟨⟨[], none⟩, 7⟩) ∧
     (([((""), (⟨⟨[], none⟩, 0⟩ : CacheEntry))] : Cache).length ≤ 51 →
      (setCachedResponse 7 ("k") ⟨[], none⟩ [((""), ⟨⟨[], none⟩, 0⟩)]).length ≤ 51) ∧
     (50 < ([((""), (⟨⟨[], none⟩, 0⟩ : CacheEntry))] : Cache).length →
      (setCachedResponse 7 ("k") ⟨[], none⟩ [((""), ⟨⟨[], none⟩, 0⟩)]).length
        ≤ ([((""), (⟨⟨[], none⟩, 0⟩ : CacheEntry))] : Cache).length)) ∧
    (setCachedResponse 7 ("k") ⟨[], none⟩ [((""), ⟨⟨[], none⟩, 0⟩)]).length ≤ 51 :=
  ⟨c8_cache_write_bound 7 ("k") ⟨[], none⟩ [((""), ⟨⟨[], none⟩, 0⟩)],
   (c8_cache_write_bound 7 ("k") ⟨[], none⟩ [((""), ⟨⟨[], none⟩, 0⟩)]).2.1 (by decide)⟩

/-! ### C1 — dedup keeps the first occurrence in task order -/
/-- C1: in every aggregator result the image ids are pairwise distinct, and
the record kept for an id is the first occurrence of that id in the
concatenated per-task lists in task order (not the highest-scoring one):
looking the id up with `find?` in the concatenation returns exactly the
kept record. -/
theorem c1_dedup_first_occurrence (net : Request → Outcome) (now : Nat)
    (subs trs : List String) (pt : String) (lim : Int)
    (aft : String → Option String) (c : Cache) :
    ((fetchExtendedWallpapers net now subs trs pt lim aft c).1.images.Pairwise
      (fun a b => a.id ≠ b.id)) ∧
    (∀ img ∈ (fetchExtendedWallpapers net now subs trs pt lim aft c).1.images,
      (allImagesOf (runTasks net now pt (optLimit lim) aft (sourcesOf subs trs) c).1).find?
        (fun x => x.id == img.id) = some img) := by
  by_cases he : subs.isEmpty
  · constructor
    · simp [fetchExtendedWallpapers, he]
    · intro img hmem
      simp [fetchExtendedWallpapers, he] at hmem
  · simp only [fetchExtendedWallpapers, if_neg he]
    constructor
    · exact (List.Perm.pairwise_iff (fun h => Ne.symm h)
        (sortByScoreDesc_perm _)).mpr (dedupById_pairwise _)
    · intro img hmem
      have hd : img ∈ dedupById
          (allImagesOf (runTasks net now pt (optLimit lim) aft (sourcesOf subs trs) c).1) :=
        (sortByScoreDesc_perm _).mem_iff.mp hmem
      exact dedupById_find? _ img hd

/-- Concrete instantiation of `c1_dedup_first_occurrence`: the record kept
for id `x` is the score-1 first occurrence, not the score-9 duplicate. -/
theorem c1_dedup_first_occurrence_witness :
    (allImagesOf (runTasks netW 0 ("top") (optLimit 50) aftNoneW
        (sourcesOf [("a")] [("d")]) []).1).find?
      (fun x => x.id == (strictMap ("a") ("d") ("top") (postW ("x") 1)).id)
      = some (strictMap ("a") ("d") ("top") (postW ("x") 1)) :=
  (c1_dedup_first_occurrence netW 0 [("a")] [("d")] ("top") 50 aftNoneW []).2
    (strictMap ("a") ("d") ("top") (postW ("x") 1)) (by decide)

/-! ### C2 — final stable sort by score descending -/
/-- C2: every aggregator result is sorted by score in descending order as
the final step after deduplication, and the sort is stable: two deduplicated
records with equal scores keep their relative first-seen order. -/
theorem c2_sorted_by_score_stable (net : Request → Outcome) (now : Nat)
    (subs trs : List String) (pt : String) (lim : Int)
    (aft : String → Option String) (c : Cache) :
    ((fetchExtendedWallpapers net now subs trs pt lim aft c).1.images.Pairwise scoreGe) ∧
    (∀ a b : Image, a.score = b.score →
      [a, b].Sublist
        (dedupById (allImagesOf
          (runTasks net now pt (optLimit lim) aft (sourcesOf subs trs) c).1)) →
      [a, b].Sublist (fetchExtendedWallpapers net now subs trs pt lim aft c).1.images) := by
  by_cases he : subs.isEmpty
  · constructor
    · simp [fetchExtendedWallpapers, he]
    · intro a b hs hsub
      have hsubs : subs = [] := List.isEmpty_iff.mp he
      subst hsubs
      simp [sourcesOf, runTasks, allImagesOf, dedupById, dedupGo] at hsub
  · simp only [fetchExtendedWallpapers, if_neg he]
    constructor
    · exact sortByScoreDesc_sorted _
    · intro a b hs hsub
      exact List.pair_sublist_insertionSort (le_of_eq (hs ▸ rfl)) hsub

/-- Concrete instantiation of `c2_sorted_by_score_stable`: two equal-score
records stay in first-seen order after the final sort. -/
theorem c2_sorted_by_score_stable_witness :
    [strictMap ("a") ("d") ("top") (postW ("x") 5),
     strictMap ("a") ("d") ("top") (postW ("y") 5)].Sublist
      (fetchExtendedWallpapers netW2 0 [("a")] [("d")] ("top") 50 aftNoneW []).1.images :=
  (c2_sorted_by_score_stable netW2 0 [("a")] [("d")] ("top") 50 aftNoneW []).2 _ _ rfl
    (by decide)

/-! ### C7 — filter guarantees on returned records -/
theorem processStrict_mem (sub time pt : String) (children : List RawPost) (img : Image)
    (h : img ∈ processStrict sub time pt children) :
    ∃ p ∈ children, strictFilter p = true ∧ img = strictMap sub time pt p := by
  simp only [processStrict, List.mem_map, List.mem_filter] at h
  obtain ⟨p, ⟨hp, hf⟩, he⟩ := h
  exact ⟨p, hp, hf, he.symm⟩

theorem strictFilter_spec (p : RawPost) (hf : strictFilter p = true) :
    p.post_hint = some ("image") ∧
    p.over_18 = false ∧ containsStr p.url ("gif") = false ∧
    containsStr p.url ("gifv") = false ∧
    hasImageExt p.url = true ∧
    ∃ ri, p.preview = some ri ∧ 150 ≤ ri.source.width ∧ 150 ≤ ri.source.height := by
  unfold strictFilter at hf
  cases hph : p.post_hint with
  | none => simp only [hph] at hf; simp at hf
  | some h =>
    simp only [hph] at hf
    cases hpv : p.preview with
    | none => simp only [hpv] at hf; simp at hf
    | some ri =>
      simp only [hpv] at hf
      cases hsu : ri.source.url with
      | none => simp only [hsu] at hf; simp at hf
      | some su =>
        simp only [hsu, Bool.and_eq_true, Bool.not_eq_true', Bool.or_eq_false_iff,
          decide_eq_false_iff_not, Nat.not_lt] at hf
        have hbeq : (h == ("image")) = true := by tauto
        have hh : h = ("image") := by simpa using hbeq
        refine ⟨by rw [hh], ?_, ?_, ?_, ?_, ri, rfl, ?_, ?_⟩
        · tauto
        · tauto
        · tauto
        · tauto
        · tauto
        · tauto

theorem permFilter1_no_video (p : RawPost) (hf : permFilter1 p = true) :
    p.post_hint ≠ some ("hosted:video") ∧ p.post_hint ≠ some ("rich:video") := by
  constructor
  · intro he
    unfold permFilter1 at hf
    rw [he] at hf
    rw [show ((some ("hosted:video") : Option String) == some ("image")) = false from
      by decide] at hf
    rw [show ((some ("hosted:video") : Option String) == some ("hosted:video")) = true from
      by decide] at hf
    simp at hf
  · intro he
    unfold permFilter1 at hf
    rw [he] at hf
    rw [show ((some ("rich:video") : Option String) == some ("image")) = false from
      by decide] at hf
    rw [show ((some ("rich:video") : Option String) == some ("hosted:video")) = false from
      by decide] at hf
    rw [show ((some ("rich:video") : Option String) == some ("rich:video")) = true from
      by decide] at hf
    simp at hf

theorem processPermissive_mem (sub time pt : String) (children : List RawPost)
    (img : ImageP) (h : img ∈ processPermissive sub time pt children) :
    ∃ p ∈ children, permFilter1 p = true ∧ permFilter2 p = true ∧
      img = permMap sub time pt p := by
  simp only [processPermissive, List.mem_map, List.mem_filter] at h
  obtain ⟨p, ⟨⟨hp, h1⟩, h2⟩, he⟩ := h
  exact ⟨p, hp, h1, h2, he.symm⟩

theorem permFilter2_spec (p : RawPost) (hf : permFilter2 p = true) :
    p.over_18 = false ∧ containsStr p.url ("gif") = false ∧
    containsStr p.url ("gifv") = false ∧
    (0 < (permDims p).1 → 0 < (permDims p).2 →
      100 ≤ (permDims p).1 ∧ 100 ≤ (permDims p).2) := by
  unfold permFilter2 at hf
  simp only [Bool.and_eq_true, Bool.not_eq_true', Bool.and_eq_false_iff,
    Bool.or_eq_false_iff, decide_eq_false_iff_not, Nat.not_lt,
    decide_eq_true_eq] at hf
  obtain ⟨⟨⟨h18, hg⟩, hgv⟩, hd⟩ := hf
  refine ⟨h18, hg, hgv, ?_⟩
  intro h1 h2
  rcases hd with (h | h) | h
  · omega
  · omega
  · exact h

theorem posDefaultW (n : Nat) : 0 < (if n = 0 then 1920 else n) := by
  by_cases h : n = 0
  · rw [if_pos h]; omega
  · rw [if_neg h]; omega

theorem posDefaultH (n : Nat) : 0 < (if n = 0 then 1080 else n) := by
  by_cases h : n = 0
  · rw [if_pos h]; omega
  · rw [if_neg h]; omega

theorem permMap_dims_pos (sub time pt : String) (p : RawPost) :
    0 < (permMap sub time pt p).width ∧ 0 < (permMap sub time pt p).height :=
  ⟨posDefaultW _, posDefaultH _⟩

/-- C7 counterexample: in the permissive revision, a gallery post whose
preview source passes the 100px floor is returned with the gallery media
dimensions 50×50, below the claimed 100px minimum; and a post whose URL is
a video file (`.mp4`, failing the static-image-extension test) is returned
unchanged, because only the `hosted:video` and `rich:video` hints are
excluded, so "not a video URL" does not hold for returned records. -/
theorem c7_permissive_counterexample :
    ((processPermissive ("wallpapers") ("week") ("top") [galleryPost]).map
      (fun i => (i.width, i.height)) = [(50, 50)] ∧
     ¬ (∀ img ∈ processPermissive ("wallpapers") ("week") ("top") [galleryPost],
        100 ≤ img.width ∧ 100 ≤ img.height)) ∧
    ((processPermissive ("wallpapers") ("week") ("top") [mp4Post]).map
      (fun i => i.url) = [("http://v/clip.mp4")] ∧
     hasImageExt ("http://v/clip.mp4") = false) := by
  refine ⟨⟨?_, ?_⟩, ?_, ?_⟩
  · decide
  · decide
  · decide
  · decide

/-- C7 amended: every record returned by either pipeline comes from a post
that is not adult-flagged, whose URL contains no GIF/GIFV marker, and whose
`post_hint` is not a video hint (`hosted:video` and `rich:video` are
excluded by both pipelines), and has width and height positive (the `url`
field is total, hence non-null).  In the strict revision the source post
additionally has `post_hint = "image"` and a direct static-image-extension
URL (so in particular not a video file), and the returned dimensions are
the preview source dimensions and reach the 150px floor.  In the
permissive revision the 100px floor is applied to the preview source
dimensions only when both are positive; the returned dimensions may come
from gallery media metadata or fallback defaults and can be below 100px,
and a record whose URL is a video file can be returned when the post
carries no video hint. -/
theorem c7_filter_guarantees (sub time pt : String) (children : List RawPost) :
    (∀ img ∈ processStrict sub time pt children,
      ∃ p ∈ children, p.post_hint = some ("image") ∧
        p.over_18 = false ∧ containsStr p.url ("gif") = false ∧
        containsStr p.url ("gifv") = false ∧ hasImageExt p.url = true ∧
        img = strictMap sub time pt p ∧
        150 ≤ img.width ∧ 150 ≤ img.height ∧ 0 < img.width ∧ 0 < img.height) ∧
    (∀ img ∈ processPermissive sub time pt children,
      (0 < img.width ∧ 0 < img.height) ∧
      ∃ p ∈ children, p.over_18 = false ∧ containsStr p.url ("gif") = false ∧
        containsStr p.url ("gifv") = false ∧
        p.post_hint ≠ some ("hosted:video") ∧ p.post_hint ≠ some ("rich:video") ∧
        (0 < (permDims p).1 → 0 < (permDims p).2 →
          100 ≤ (permDims p).1 ∧ 100 ≤ (permDims p).2) ∧
        img = permMap sub time pt p) := by
  constructor
  · intro img hmem
    obtain ⟨p, hp, hf, he⟩ := processStrict_mem sub time pt children img hmem
    obtain ⟨hhint, h18, hg, hgv, hext, ri, hpv, hw, hh⟩ := strictFilter_spec p hf
    have hwid : img.width = ri.source.width := by
      rw [he]; simp [strictMap, hpv]
    have hhei : img.height = ri.source.height := by
      rw [he]; simp [strictMap, hpv]
    exact ⟨p, hp, hhint, h18, hg, hgv, hext, he, hwid ▸ hw, hhei ▸ hh,
      by omega, by omega⟩
  · intro img hmem
    obtain ⟨p, hp, h1, h2, he⟩ := processPermissive_mem sub time pt children img hmem
    obtain ⟨h18, hg, hgv, hdim⟩ := permFilter2_spec p h2
    obtain ⟨hv1, hv2⟩ := permFilter1_no_video p h1
    refine ⟨he ▸ permMap_dims_pos sub time pt p, p, hp, h18, hg, hgv, hv1, hv2,
      hdim, he⟩

/-- Concrete instantiation of `c7_filter_guarantees` on a one-post listing
for each pipeline. -/
theorem c7_filter_guarantees_witness :
    (∃ p ∈ [postW ("x") 1], p.post_hint = some ("image") ∧
      p.over_18 = false ∧ containsStr p.url ("gif") = false ∧
      containsStr p.url ("gifv") = false ∧ hasImageExt p.url = true ∧
      strictMap ("a") ("d") ("top") (postW ("x") 1) = strictMap ("a") ("d") ("top") p ∧
      150 ≤ (strictMap ("a") ("d") ("top") (postW ("x") 1)).width ∧
      150 ≤ (strictMap ("a") ("d") ("top") (postW ("x") 1)).height ∧
      0 < (strictMap ("a") ("d") ("top") (postW ("x") 1)).width ∧
      0 < (strictMap ("a") ("d") ("top") (postW ("x") 1)).height) ∧
    ((0 < (permMap ("a") ("d") ("top") galleryPost).width ∧
      0 < (permMap ("a") ("d") ("top") galleryPost).height) ∧
     ∃ p ∈ [galleryPost], p.over_18 = false ∧ containsStr p.url ("gif") = false ∧
       containsStr p.url ("gifv") = false ∧
       p.post_hint ≠ some ("hosted:video") ∧ p.post_hint ≠ some ("rich:video") ∧
       (0 < (permDims p).1 → 0 < (permDims p).2 →
         100 ≤ (permDims p).1 ∧ 100 ≤ (permDims p).2) ∧
       permMap ("a") ("d") ("top") galleryPost = permMap ("a") ("d") ("top") p) :=
  ⟨(c7_filter_guarantees ("a") ("d") ("top") [postW ("x") 1]).1
      (strictMap ("a") ("d") ("top") (postW ("x") 1)) (by decide),
   (c7_filter_guarantees ("a") ("d") ("top") [galleryPost]).2
      (permMap ("a") ("d") ("top") galleryPost) (by decide)⟩

/-! ### Association map lemmas (JS `Map` / plain-object semantics) -/
theorem assocFind_mapSet_self (m : List (String × α)) (k : String) (v : α) :
    assocFind k (mapSet m k v) = some v := by
  induction m with
  | nil => simp [mapSet, assocFind]
  | cons h t ih =>
    obtain ⟨k', v'⟩ := h
    by_cases hk : k' = k
    · simp [mapSet, hk, assocFind]
    · simp [mapSet, hk, assocFind, ih]

theorem assocFind_mapSet_other (m : List (String × α)) (k k' : String) (v : α)
    (h : k' ≠ k) : assocFind k' (mapSet m k v) = assocFind k' m := by
  have hkk : ¬ (k = k') := fun he => h he.symm
  induction m with
  | nil => simp [mapSet, assocFind, hkk]
  | cons hd t ih =>
    obtain ⟨k0, v0⟩ := hd
    by_cases hk : k0 = k
    · subst hk
      simp [mapSet, assocFind, hkk]
    · simp [mapSet, assocFind, hk, ih]

theorem assocFind_mapDelete_none (m : List (String × α)) (k k' : String)
    (h : assocFind k m = none) : assocFind k (mapDelete m k') = none := by
  induction m with
  | nil => simp [mapDelete, assocFind]
  | cons hd t ih =>
    obtain ⟨k0, v0⟩ := hd
    simp only [assocFind] at h
    by_cases hk0 : k0 = k
    · simp [hk0] at h
    · simp only [if_neg hk0] at h
      by_cases hdel : k0 = k'
      · simpa [mapDelete, hdel] using h
      · simp [mapDelete, hdel, assocFind, hk0, ih h]

theorem assocFind_setCachedResponse_other (now : Nat) (k : String) (d : TaskData)
    (c : Cache) (k' : String) (h : assocFind k' c = none) (hne : k' ≠ k) :
    assocFind k' (setCachedResponse now k d c) = none := by
  unfold setCachedResponse
  rw [assocFind_mapSet_other _ _ _ _ hne]
  by_cases hl : 50 < c.length
  · simp only [if_pos hl]
    cases c with
    | nil => simpa using h
    | cons hd t => exact assocFind_mapDelete_none _ _ _ h
  · simpa [if_neg hl] using h

theorem assocFind_setCachedResponse_self (now : Nat) (k : String) (d : TaskData)
    (c : Cache) :
    assocFind k (setCachedResponse now k d c) = some ⟨d, now⟩ := by
  unfold setCachedResponse
  exact assocFind_mapSet_self _ _ _

theorem mem_keys_mapSet (m : List (String × α)) (k k0 : String) (v : α)
    (h : k0 ∈ (mapSet m k v).map Prod.fst) : k0 ∈ m.map Prod.fst ∨ k0 = k := by
  induction m with
  | nil =>
    rw [show mapSet ([] : List (String × α)) k v = [(k, v)] from rfl] at h
    rcases List.mem_cons.mp h with he | hm
    · exact Or.inr he
    · cases hm
  | cons hd t ih =>
    obtain ⟨k1, v1⟩ := hd
    by_cases hk : k1 = k
    · rw [show mapSet ((k1, v1) :: t) k v = (k, v) :: t from by simp [mapSet, hk]] at h
      rw [List.map_cons] at h
      rcases List.mem_cons.mp h with he | hm
      · exact Or.inr he
      · exact Or.inl (by rw [List.map_cons]; exact List.mem_cons_of_mem _ hm)
    · rw [show mapSet ((k1, v1) :: t) k v = (k1, v1) :: mapSet t k v from by
        simp [mapSet, hk]] at h
      rw [List.map_cons] at h
      rcases List.mem_cons.mp h with he | hm
      · exact Or.inl (by rw [List.map_cons]; exact List.mem_cons.mpr (Or.inl he))
      · rcases ih hm with hm2 | he2
        · exact Or.inl (by rw [List.map_cons]; exact List.mem_cons_of_mem _ hm2)
        · exact Or.inr he2

theorem mapSet_keys_nodup (m : List (String × α)) (k : String) (v : α)
    (h : (m.map Prod.fst).Nodup) : ((mapSet m k v).map Prod.fst).Nodup := by
  induction m with
  | nil => simp [mapSet]
  | cons hd t ih =>
    obtain ⟨k1, v1⟩ := hd
    rw [List.map_cons, List.nodup_cons] at h
    by_cases hk : k1 = k
    · rw [show mapSet ((k1, v1) :: t) k v = (k, v) :: t from by simp [mapSet, hk]]
      rw [List.map_cons, List.nodup_cons]
      exact ⟨hk ▸ h.1, h.2⟩
    · rw [show mapSet ((k1, v1) :: t) k v = (k1, v1) :: mapSet t k v from by
        simp [mapSet, hk]]
      rw [List.map_cons, List.nodup_cons]
      refine ⟨?_, ih h.2⟩
      intro hc
      rcases mem_keys_mapSet t k k1 v hc with hm | he
      · exact h.1 hm
      · exact hk he

theorem mapSet_length_of_absent (m : List (String × α)) (k : String) (v : α)
    (h : assocFind k m = none) : (mapSet m k v).length = m.length + 1 := by
  induction m with
  | nil => simp [mapSet]
  | cons hd t ih =>
    obtain ⟨k1, v1⟩ := hd
    simp only [assocFind] at h
    by_cases hk : k1 = k
    · simp [hk] at h
    · simp only [if_neg hk] at h
      simp [mapSet, hk, ih h]

/-! ### Characterization of the after-token map -/
theorem assocFind_foldl_mapSet (rs : List TaskResult)
    (m : List (String × Option String)) (k : String) :
    assocFind k (rs.foldl (fun acc r => mapSet acc r.key r.after) m)
      = (match rs.reverse.find? (fun r => r.key == k) with
         | some r => some r.after
         | none => assocFind k m) := by
  induction rs generalizing m with
  | nil => simp
  | cons r rest ih =>
    simp only [List.foldl_cons, List.reverse_cons, List.find?_append]
    rw [ih]
    cases hf : rest.reverse.find? (fun x => x.key == k) with
    | some r' => simp [Option.or]
    | none =>
      simp only [Option.or]
      by_cases hk : r.key = k
      · rw [List.find?_cons_of_pos _ (by simp [hk])]
        subst hk
        exact assocFind_mapSet_self m r.key r.after
      · rw [List.find?_cons_of_neg _ (by simp [hk])]
        simp only [List.find?_nil]
        rw [assocFind_mapSet_other _ _ _ _ (fun he => hk he.symm)]

theorem find?_key_of_nodup (l : List TaskResult) (r : TaskResult)
    (hn : (l.map (fun x => x.key)).Nodup) (hm : r ∈ l) :
    l.find? (fun x => x.key == r.key) = some r := by
  induction l with
  | nil => cases hm
  | cons x rest ih =>
    rw [List.map_cons, List.nodup_cons] at hn
    rcases List.mem_cons.mp hm with he | hmem
    · subst he
      rw [List.find?_cons_of_pos _ (by simp)]
    · have hx : (x.key == r.key) = false := by
        simp only [beq_eq_false_iff_ne, ne_eq]
        intro he
        exact hn.1 (he ▸ List.mem_map_of_mem (fun y => y.key) hmem)
      rw [List.find?_cons, hx]
      exact ih hn.2 hmem

theorem buildAfterMap_lookup (rs : List TaskResult) (k : String) :
    assocFind k (buildAfterMap rs)
      = (match rs.reverse.find? (fun r => r.key == k) with
         | some r => some r.after
         | none => none) := by
  rw [buildAfterMap, assocFind_foldl_mapSet]
  cases rs.reverse.find? (fun r => r.key == k) with
  | some r => rfl
  | none => rfl

theorem buildAfterMap_lookup_of_nodup (rs : List TaskResult) (r : TaskResult)
    (hn : (rs.map (fun x => x.key)).Nodup) (hm : r ∈ rs) :
    assocFind r.key (buildAfterMap rs) = some r.after := by
  rw [buildAfterMap_lookup]
  have hrev : (rs.reverse.map (fun x => x.key)).Nodup := by
    rw [List.map_reverse, List.nodup_reverse]
    exact hn
  rw [find?_key_of_nodup rs.reverse r hrev (List.mem_reverse.mpr hm)]

theorem buildAfterMap_keys_nodup (rs : List TaskResult) :
    ((buildAfterMap rs).map Prod.fst).Nodup := by
  rw [buildAfterMap]
  have hgen : ∀ m : List (String × Option String), (m.map Prod.fst).Nodup →
      ((rs.foldl (fun acc r => mapSet acc r.key r.after) m).map Prod.fst).Nodup := by
    induction rs with
    | nil => intro m hm; simpa using hm
    | cons r rest ih =>
      intro m hm
      rw [List.foldl_cons]
      exact ih _ (mapSet_keys_nodup m r.key r.after hm)
  exact hgen [] (by simp)

theorem foldl_mapSet_length (rs : List TaskResult) :
    ∀ m : List (String × Option String),
      (∀ r ∈ rs, assocFind r.key m = none) →
      ((rs.map (fun r => r.key)).Nodup) →
      (rs.foldl (fun acc r => mapSet acc r.key r.after) m).length
        = m.length + rs.length := by
  induction rs with
  | nil => intro m _ _; simp
  | cons r rest ih =>
    intro m habs hn
    rw [List.map_cons, List.nodup_cons] at hn
    rw [List.foldl_cons]
    rw [ih (mapSet m r.key r.after) ?habs2 hn.2]
    · rw [mapSet_length_of_absent m r.key r.after
        (habs r (List.mem_cons_self _ _))]
      simp only [List.length_cons]
      omega
    case habs2 =>
      intro r' hr'
      rw [assocFind_mapSet_other]
      · exact habs r' (List.mem_cons_of_mem _ hr')
      · intro he
        exact hn.1 (he ▸ List.mem_map_of_mem (fun y => y.key) hr')

theorem buildAfterMap_length (rs : List TaskResult)
    (hn : (rs.map (fun r => r.key)).Nodup) :
    (buildAfterMap rs).length = rs.length := by
  rw [buildAfterMap, foldl_mapSet_length rs [] (fun r _ => rfl) hn]
  simp

theorem runTask_of_miss (net : Request → Outcome) (now : Nat) (pt : String)
    (lim : Int) (aft : String → Option String) (s : Source) (c : Cache)
    (hmiss : assocFind (createCacheKey s.sub s.time pt none) c = none) :
    (runTask net now pt lim aft s c).1 = naturalResult net pt lim aft s ∧
    (∀ k, assocFind k c = none → k ≠ createCacheKey s.sub s.time pt none →
      assocFind k (runTask net now pt lim aft s c).2.1 = none) := by
  have hlook : getCachedResponse now (createCacheKey s.sub s.time pt none) c
      = (none, c) := by
    unfold getCachedResponse
    rw [hmiss]
  cases htok : normTok (aft (afterKey s.sub s.time)) with
  | none =>
    cases hnet : net ⟨s.sub, s.time, pt, lim, none⟩ with
    | failure =>
      refine ⟨?_, ?_⟩
      · simp [runTask, htok, hlook, hnet, naturalResult, reqOf, imagesOfOutcome,
          cursorOfOutcome]
      · intro k hk hne
        simp only [runTask, htok, hlook, hnet]
        exact hk
    | malformed =>
      refine ⟨?_, ?_⟩
      · simp [runTask, htok, hlook, hnet, naturalResult, reqOf, imagesOfOutcome,
          cursorOfOutcome]
      · intro k hk hne
        simp only [runTask, htok, hlook, hnet]
        exact hk
    | success ch a =>
      refine ⟨?_, ?_⟩
      · simp [runTask, htok, hlook, hnet, naturalResult, reqOf, imagesOfOutcome,
          cursorOfOutcome]
      · intro k hk hne
        simp only [runTask, htok, hlook, hnet]
        exact assocFind_setCachedResponse_other now _ _ c k hk hne
  | some t =>
    cases hnet : net ⟨s.sub, s.time, pt, lim, some t⟩ with
    | failure =>
      refine ⟨?_, ?_⟩
      · simp [runTask, htok, hnet, naturalResult, reqOf, imagesOfOutcome,
          cursorOfOutcome]
      · intro k hk hne
        simp only [runTask, htok, hnet]
        exact hk
    | malformed =>
      refine ⟨?_, ?_⟩
      · simp [runTask, htok, hnet, naturalResult, reqOf, imagesOfOutcome,
          cursorOfOutcome]
      · intro k hk hne
        simp only [runTask, htok, hnet]
        exact hk
    | success ch a =>
      refine ⟨?_, ?_⟩
      · simp [runTask, htok, hnet, naturalResult, reqOf, imagesOfOutcome,
          cursorOfOutcome]
      · intro k hk hne
        simp only [runTask, htok, hnet]
        exact hk

theorem runTasks_of_miss (net : Request → Outcome) (now : Nat) (pt : String)
    (lim : Int) (aft : String → Option String) (srcs : List Source) (c : Cache)
    (hmiss : ∀ s ∈ srcs, assocFind (createCacheKey s.sub s.time pt none) c = none)
    (hnodup : (srcs.map (fun s => createCacheKey s.sub s.time pt none)).Nodup) :
    (runTasks net now pt lim aft srcs c).1
      = srcs.map (naturalResult net pt lim aft) := by
  induction srcs generalizing c with
  | nil => rfl
  | cons s rest ih =>
    rw [List.map_cons, List.nodup_cons] at hnodup
    obtain ⟨hres, hpres⟩ := runTask_of_miss net now pt lim aft s c
      (hmiss s (List.mem_cons_self _ _))
    simp only [runTasks, List.map_cons]
    rw [hres]
    refine congrArg _ ?_
    refine ih (runTask net now pt lim aft s c).2.1 ?_ hnodup.2
    intro s' hs'
    refine hpres _ (hmiss s' (List.mem_cons_of_mem _ hs')) ?_
    intro he
    exact hnodup.1 (he ▸ List.mem_map_of_mem _ hs')

theorem runTask_key (net : Request → Outcome) (now : Nat) (pt : String)
    (lim : Int) (aft : String → Option String) (s : Source) (c : Cache) :
    (runTask net now pt lim aft s c).1.key = afterKey s.sub s.time := by
  cases htok : normTok (aft (afterKey s.sub s.time)) with
  | none =>
    rcases hg : getCachedResponse now (createCacheKey s.sub s.time pt none) c with
      ⟨hit, c1⟩
    cases hit with
    | some d => simp [runTask, htok, hg]
    | none =>
      cases hnet : net ⟨s.sub, s.time, pt, lim, none⟩ with
      | failure => simp [runTask, htok, hg, hnet]
      | malformed => simp [runTask, htok, hg, hnet]
      | success ch a => simp [runTask, htok, hg, hnet]
  | some t =>
    cases hnet : net ⟨s.sub, s.time, pt, lim, some t⟩ with
    | failure => simp [runTask, htok, hnet]
    | malformed => simp [runTask, htok, hnet]
    | success ch a => simp [runTask, htok, hnet]

theorem runTasks_keys (net : Request → Outcome) (now : Nat) (pt : String)
    (lim : Int) (aft : String → Option String) (srcs : List Source) (c : Cache) :
    (runTasks net now pt lim aft srcs c).1.map (fun r => r.key)
      = srcs.map (fun s => afterKey s.sub s.time) := by
  induction srcs generalizing c with
  | nil => rfl
  | cons s rest ih =>
    simp only [runTasks, List.map_cons]
    rw [runTask_key, ih]

theorem runTasks_length (net : Request → Outcome) (now : Nat) (pt : String)
    (lim : Int) (aft : String → Option String) (srcs : List Source) (c : Cache) :
    (runTasks net now pt lim aft srcs c).1.length = srcs.length := by
  have h := congrArg List.length (runTasks_keys net now pt lim aft srcs c)
  simpa using h

theorem processStrict_provenance (sub time pt : String) (ch : List RawPost)
    (img : Image) (h : img ∈ processStrict sub time pt ch) :
    img.subreddit = sub ∧ img.time = time := by
  obtain ⟨p, _, _, he⟩ := processStrict_mem sub time pt ch img h
  subst he
  exact ⟨rfl, rfl⟩

theorem string_append_right_cancel (a b suf : String) (h : a ++ suf = b ++ suf) :
    a = b := by
  have hd : a.data ++ suf.data = b.data ++ suf.data := by
    have h2 := congrArg String.data h
    simpa [String.data_append] using h2
  have hab : a.data = b.data := List.append_cancel_right hd
  exact congrArg String.mk hab

theorem createCacheKey_decomp (sub time pt : String) :
    createCacheKey sub time pt none
      = afterKey sub time ++ (("_") ++ pt ++ ("_") ++ ("null")) := by
  unfold createCacheKey afterKey normTok
  simp only [String.append_assoc]

theorem createCacheKey_nodup (pt : String) (srcs : List Source)
    (h : (srcs.map (fun s => afterKey s.sub s.time)).Nodup) :
    (srcs.map (fun s => createCacheKey s.sub s.time pt none)).Nodup := by
  have hmap : srcs.map (fun s => createCacheKey s.sub s.time pt none)
      = (srcs.map (fun s => afterKey s.sub s.time)).map
          (fun k => k ++ (("_") ++ pt ++ ("_") ++ ("null"))) := by
    rw [List.map_map]
    refine List.map_congr_left ?_
    intro s _
    exact createCacheKey_decomp s.sub s.time pt
  rw [hmap]
  have hinj : Function.Injective
      (fun k : String => k ++ (("_") ++ pt ++ ("_") ++ ("null"))) := by
    intro a b hab
    exact string_append_right_cancel a b _ hab
  exact List.Nodup.map hinj h

/-! ### C9 — after-token map entries -/
/-- C9: in every aggregator result the after map binds each key at most
once; the value bound to a key is the resulting cursor of the last task (in
task order) whose composed key equals it (later tasks overwrite earlier
ones on collision); and when the composed keys are pairwise distinct the
map has exactly one entry per source pair, binding each pair's key to its
own task's resulting cursor. -/
theorem c9_after_map_per_pair (net : Request → Outcome) (now : Nat)
    (subs trs : List String) (pt : String) (lim : Int)
    (aft : String → Option String) (c : Cache) :
    (((fetchExtendedWallpapers net now subs trs pt lim aft c).1.after.map Prod.fst).Nodup) ∧
    (∀ k : String,
      assocFind k (fetchExtendedWallpapers net now subs trs pt lim aft c).1.after
        = (match (runTasks net now pt (optLimit lim) aft
              (sourcesOf subs trs) c).1.reverse.find? (fun r => r.key == k) with
           | some r => some r.after
           | none => none)) ∧
    (((sourcesOf subs trs).map (fun s => afterKey s.sub s.time)).Nodup →
      (fetchExtendedWallpapers net now subs trs pt lim aft c).1.after.length
          = (sourcesOf subs trs).length ∧
      ∀ r ∈ (runTasks net now pt (optLimit lim) aft (sourcesOf subs trs) c).1,
        assocFind r.key (fetchExtendedWallpapers net now subs trs pt lim aft c).1.after
          = some r.after) := by
  by_cases he : subs.isEmpty
  · have hsubs : subs = [] := List.isEmpty_iff.mp he
    subst hsubs
    refine ⟨by simp [fetchExtendedWallpapers], ?_, ?_⟩
    · intro k
      simp [fetchExtendedWallpapers, sourcesOf, runTasks, assocFind]
    · intro _
      refine ⟨by simp [fetchExtendedWallpapers, sourcesOf], ?_⟩
      intro r hr
      simp [sourcesOf, runTasks] at hr
  · simp only [fetchExtendedWallpapers, if_neg he]
    refine ⟨buildAfterMap_keys_nodup _, ?_, ?_⟩
    · intro k
      exact buildAfterMap_lookup _ k
    · intro hnodup
      have hrnodup : ((runTasks net now pt (optLimit lim) aft
          (sourcesOf subs trs) c).1.map (fun r => r.key)).Nodup := by
        rw [runTasks_keys]
        exact hnodup
      refine ⟨?_, ?_⟩
      · rw [buildAfterMap_length _ hrnodup, runTasks_length]
      · intro r hr
        exact buildAfterMap_lookup_of_nodup _ r hrnodup hr

/-- Concrete instantiation of `c9_after_map_per_pair` for a one-pair call. -/
theorem c9_after_map_per_pair_witness :
    (fetchExtendedWallpapers netW 0 [("a")] [("d")] ("top") 50 aftNoneW []).1.after.length
        = (sourcesOf [("a")] [("d")]).length ∧
    ∀ r ∈ (runTasks netW 0 ("top") (optLimit 50) aftNoneW (sourcesOf [("a")] [("d")]) []).1,
      assocFind r.key
          (fetchExtendedWallpapers netW 0 [("a")] [("d")] ("top") 50 aftNoneW []).1.after
        = some r.after :=
  (c9_after_map_per_pair netW 0 [("a")] [("d")] ("top") 50 aftNoneW []).2.2 (by decide)

/-- C3 counterexample: with subreddits `["a", "a_b"]` and time ranges
`["b_week", "week"]` the distinct pairs `(a, b_week)` and `(a_b, week)`
compose the same key `a_b_week`; the first pair's task fails, yet the
returned cursor entry for its key is the second pair's cursor `tok`, not
null. -/
theorem c3_failure_isolation_counterexample :
    netC3 (reqOf ("top") (optLimit 50) aftNoneW ⟨("a"), ("b_week")⟩) = Outcome.failure ∧
    assocFind ("a_b_week")
      (fetchExtendedWallpapers netC3 0 [("a"), ("a_b")] [("b_week"), ("week")] ("top") 50
        aftNoneW []).1.after = some (some ("tok")) := by
  constructor
  · decide
  · decide

/-- C3 amended: provided the composed keys of the source pairs are pairwise
distinct and the call starts from an empty cache (so that the failing
pair's task really issues its request rather than being served from the
cache), a pair whose request fails yields a null cursor entry under its
key, contributes no image to the result, and every other pair's entry is
exactly the cursor determined by its own task's outcome; the aggregator is
a total function, so per-task failures never raise to the caller. -/
theorem c3_failure_isolation (net : Request → Outcome) (now : Nat)
    (subs trs : List String) (pt : String) (lim : Int)
    (aft : String → Option String) (p : Source)
    (hnodup : ((sourcesOf subs trs).map (fun s => afterKey s.sub s.time)).Nodup)
    (hp : p ∈ sourcesOf subs trs)
    (hfail : net (reqOf pt (optLimit lim) aft p) = Outcome.failure) :
    (assocFind (afterKey p.sub p.time)
        (fetchExtendedWallpapers net now subs trs pt lim aft []).1.after = some none) ∧
    (∀ img ∈ (fetchExtendedWallpapers net now subs trs pt lim aft []).1.images,
      ¬ (img.subreddit = p.sub ∧ img.time = p.time)) ∧
    (∀ q ∈ sourcesOf subs trs,
      assocFind (afterKey q.sub q.time)
          (fetchExtendedWallpapers net now subs trs pt lim aft []).1.after
        = some (cursorOfOutcome (net (reqOf pt (optLimit lim) aft q)))) := by
  have hne : ¬ subs.isEmpty := by
    intro he
    have hsubs : subs = [] := List.isEmpty_iff.mp he
    subst hsubs
    simp [sourcesOf] at hp
  have hresults :
      (runTasks net now pt (optLimit lim) aft (sourcesOf subs trs) []).1
        = (sourcesOf subs trs).map (naturalResult net pt (optLimit lim) aft) :=
    runTasks_of_miss net now pt (optLimit lim) aft _ []
      (fun _ _ => rfl) (createCacheKey_nodup pt _ hnodup)
  have hrnodup : ((runTasks net now pt (optLimit lim) aft
      (sourcesOf subs trs) []).1.map (fun r => r.key)).Nodup := by
    rw [runTasks_keys]
    exact hnodup
  have hlookup : ∀ q ∈ sourcesOf subs trs,
      assocFind (afterKey q.sub q.time)
          (fetchExtendedWallpapers net now subs trs pt lim aft []).1.after
        = some (cursorOfOutcome (net (reqOf pt (optLimit lim) aft q))) := by
    intro q hq
    simp only [fetchExtendedWallpapers, if_neg hne]
    have hmem : naturalResult net pt (optLimit lim) aft q
        ∈ (runTasks net now pt (optLimit lim) aft (sourcesOf subs trs) []).1 := by
      rw [hresults]
      exact List.mem_map_of_mem _ hq
    have hl := buildAfterMap_lookup_of_nodup _ _ hrnodup hmem
    simpa [naturalResult] using hl
  refine ⟨?_, ?_, hlookup⟩
  · have hl := hlookup p hp
    rw [hfail] at hl
    simpa [cursorOfOutcome] using hl
  · intro img hmem hpq
    simp only [fetchExtendedWallpapers, if_neg hne] at hmem
    have h1 : img ∈ dedupById (allImagesOf
        (runTasks net now pt (optLimit lim) aft (sourcesOf subs trs) []).1) :=
      (sortByScoreDesc_perm _).mem_iff.mp hmem
    have h2 : img ∈ allImagesOf
        (runTasks net now pt (optLimit lim) aft (sourcesOf subs trs) []).1 :=
      dedupById_subset _ h1
    rw [hresults] at h2
    simp only [allImagesOf, List.mem_flatMap] at h2
    obtain ⟨r, hr, himg⟩ := h2
    obtain ⟨q, hq, hqr⟩ := List.mem_map.mp hr
    subst hqr
    by_cases hqp : q = p
    · subst hqp
      simp [naturalResult, hfail, imagesOfOutcome] at himg
    · have hprov : img.subreddit = q.sub ∧ img.time = q.time := by
        simp only [naturalResult] at himg
        cases hnet : net (reqOf pt (optLimit lim) aft q) with
        | failure => rw [hnet] at himg; simp [imagesOfOutcome] at himg
        | malformed => rw [hnet] at himg; simp [imagesOfOutcome] at himg
        | success ch a =>
          rw [hnet] at himg
          simp only [imagesOfOutcome] at himg
          exact processStrict_provenance _ _ _ _ _ himg
      have hsub : q.sub = p.sub := hprov.1.symm.trans hpq.1
      have htime : q.time = p.time := hprov.2.symm.trans hpq.2
      refine hqp ?_
      cases q
      cases p
      simp only at hsub htime
      rw [hsub, htime]

/-- Concrete instantiation of `c3_failure_isolation`: the pair `(a, d)`
fails while `(b, d)` succeeds. -/
theorem c3_failure_isolation_witness :
    (assocFind (afterKey ("a") ("d"))
        (fetchExtendedWallpapers netC3W 0 [("a"), ("b")] [("d")] ("top") 50
          aftNoneW []).1.after = some none) ∧
    (∀ img ∈ (fetchExtendedWallpapers netC3W 0 [("a"), ("b")] [("d")] ("top") 50
        aftNoneW []).1.images,
      ¬ (img.subreddit = ("a") ∧ img.time = ("d"))) ∧
    (∀ q ∈ sourcesOf [("a"), ("b")] [("d")],
      assocFind (afterKey q.sub q.time)
          (fetchExtendedWallpapers netC3W 0 [("a"), ("b")] [("d")] ("top") 50
            aftNoneW []).1.after
        = some (cursorOfOutcome (netC3W (reqOf ("top") (optLimit 50) aftNoneW q)))) :=
  c3_failure_isolation netC3W 0 [("a"), ("b")] [("d")] ("top") 50 aftNoneW
    ⟨("a"), ("d")⟩ (by decide) (by decide) (by decide)

/-! ### C6 — cache is first-page only; stale entries are evicted -/
/-- C6: a task carrying a (truthy) cursor token bypasses the cache
entirely: the cache state is unchanged and the event trace is exactly one
network request, with no cache read and no cache write; and a cache entry
older than the TTL is treated as a miss and evicted on lookup, after which
a first-page task issues a fresh network request. -/
theorem c6_cache_first_page_only (net : Request → Outcome) (now : Nat) (pt : String)
    (lim : Int) (aft : String → Option String) (s : Source) (c : Cache) :
    (∀ t, normTok (aft (afterKey s.sub s.time)) = some t →
      ((runTask net now pt lim aft s c).2.1 = c ∧
       (runTask net now pt lim aft s c).2.2
         = [Event.netRequest ⟨s.sub, s.time, pt, lim, some t⟩] ∧
       ∀ k : String, Event.cacheRead k ∉ (runTask net now pt lim aft s c).2.2 ∧
         Event.cacheWrite k ∉ (runTask net now pt lim aft s c).2.2)) ∧
    (∀ e, assocFind (createCacheKey s.sub s.time pt none) c = some e →
      CACHE_DURATION ≤ now - e.timestamp →
      (getCachedResponse now (createCacheKey s.sub s.time pt none) c
        = (none, mapDelete c (createCacheKey s.sub s.time pt none)) ∧
       (normTok (aft (afterKey s.sub s.time)) = none →
         Event.netRequest ⟨s.sub, s.time, pt, lim, none⟩
           ∈ (runTask net now pt lim aft s c).2.2))) := by
  constructor
  · intro t htok
    cases hnet : net ⟨s.sub, s.time, pt, lim, some t⟩ with
    | failure =>
      refine ⟨by simp [runTask, htok, hnet], by simp [runTask, htok, hnet], ?_⟩
      intro k
      simp [runTask, htok, hnet]
    | malformed =>
      refine ⟨by simp [runTask, htok, hnet], by simp [runTask, htok, hnet], ?_⟩
      intro k
      simp [runTask, htok, hnet]
    | success ch a =>
      refine ⟨by simp [runTask, htok, hnet], by simp [runTask, htok, hnet], ?_⟩
      intro k
      simp [runTask, htok, hnet]
  · intro e hfind httl
    have hval : isCacheValid now e = false := by
      unfold isCacheValid
      simp only [decide_eq_false_iff_not, Nat.not_lt]
      exact httl
    have hget : getCachedResponse now (createCacheKey s.sub s.time pt none) c
        = (none, mapDelete c (createCacheKey s.sub s.time pt none)) := by
      unfold getCachedResponse
      rw [hfind]
      simp [hval]
    refine ⟨hget, ?_⟩
    intro htok
    cases hnet : net ⟨s.sub, s.time, pt, lim, none⟩ with
    | failure => simp [runTask, htok, hget, hnet]
    | malformed => simp [runTask, htok, hget, hnet]
    | success ch a => simp [runTask, htok, hget, hnet]

/-- Concrete instantiation of `c6_cache_first_page_only`: a continuation
task bypasses the cache, and a stale entry is evicted on lookup with a
fresh network request issued. -/
theorem c6_cache_first_page_only_witness :
    ((runTask netW 0 ("top") 50 aftContW ⟨("a"), ("d")⟩ []).2.1 = ([] : Cache) ∧
     (runTask netW 0 ("top") 50 aftContW ⟨("a"), ("d")⟩ []).2.2
       = [Event.netRequest ⟨("a"), ("d"), ("top"), 50, some ("cur")⟩] ∧
     ∀ k : String,
       Event.cacheRead k ∉ (runTask netW 0 ("top") 50 aftContW ⟨("a"), ("d")⟩ []).2.2 ∧
       Event.cacheWrite k ∉ (runTask netW 0 ("top") 50 aftContW ⟨("a"), ("d")⟩ []).2.2) ∧
    (getCachedResponse CACHE_DURATION (createCacheKey ("a") ("d") ("top") none) staleCacheW
      = (none, mapDelete staleCacheW (createCacheKey ("a") ("d") ("top") none)) ∧
     Event.netRequest ⟨("a"), ("d"), ("top"), 50, none⟩
       ∈ (runTask netW CACHE_DURATION ("top") 50 aftNoneW ⟨("a"), ("d")⟩ staleCacheW).2.2) :=
  ⟨(c6_cache_first_page_only netW 0 ("top") 50 aftContW ⟨("a"), ("d")⟩ []).1
      ("cur") (by decide),
   ((c6_cache_first_page_only netW CACHE_DURATION ("top") 50 aftNoneW ⟨("a"), ("d")⟩
        staleCacheW).2 ⟨⟨[], none⟩, 0⟩ (by decide) (by decide)).1,
   ((c6_cache_first_page_only netW CACHE_DURATION ("top") 50 aftNoneW ⟨("a"), ("d")⟩
        staleCacheW).2 ⟨⟨[], none⟩, 0⟩ (by decide) (by decide)).2 (by decide)⟩

/-! ### C5 — first-page idempotence within the TTL via the cache -/
/-- C5: two first-page calls for the same `(subreddit, timeRange,
postType)` pair, the second within the TTL of the first and with nothing
intervening (the second call runs on exactly the cache state the first call
returned), return identical image lists, and the second call issues no
network request (its trace is the cache read alone).  The first call is
assumed to miss the cache and to fetch successfully — the cache hit the
claim describes presupposes a stored first-page result. -/
theorem c5_first_page_cache_idempotence (net : Request → Outcome)
    (now1 now2 : Nat) (sub tr pt : String) (lim : Int) (c : Cache)
    (ch : List RawPost) (a : Option String)
    (hmiss : assocFind (createCacheKey sub tr pt none) c = none)
    (hnet : net ⟨sub, tr, pt, optLimit lim, none⟩ = Outcome.success ch a)
    (httl : now2 - now1 < CACHE_DURATION) :
    ((fetchExtendedWallpapers net now2 [sub] [tr] pt lim aftNoneW
        (fetchExtendedWallpapers net now1 [sub] [tr] pt lim aftNoneW c).2.1).1.images
      = (fetchExtendedWallpapers net now1 [sub] [tr] pt lim aftNoneW c).1.images) ∧
    (∀ r : Request, Event.netRequest r ∉
      (fetchExtendedWallpapers net now2 [sub] [tr] pt lim aftNoneW
        (fetchExtendedWallpapers net now1 [sub] [tr] pt lim aftNoneW c).2.1).2.2) := by
  have hsrc : sourcesOf [sub] [tr] = [⟨sub, tr⟩] := by
    simp [sourcesOf]
  have htokn : ∀ k : String, normTok (aftNoneW k) = none := fun _ => rfl
  have hlook1 : getCachedResponse now1 (createCacheKey sub tr pt none) c = (none, c) := by
    unfold getCachedResponse
    rw [hmiss]
  have h1 : fetchExtendedWallpapers net now1 [sub] [tr] pt lim aftNoneW c
      = (⟨sortByScoreDesc (dedupById (processStrict sub tr pt ch)),
          [(afterKey sub tr, normTok a)]⟩,
         setCachedResponse now1 (createCacheKey sub tr pt none)
           ⟨processStrict sub tr pt ch, normTok a⟩ c,
         [Event.cacheRead (createCacheKey sub tr pt none),
          Event.netRequest ⟨sub, tr, pt, optLimit lim, none⟩,
          Event.cacheWrite (createCacheKey sub tr pt none)]) := by
    simp [fetchExtendedWallpapers, hsrc, runTasks, runTask, htokn,
      hlook1, hnet, allImagesOf, buildAfterMap, mapSet]
  have hfind2 : assocFind (createCacheKey sub tr pt none)
      (setCachedResponse now1 (createCacheKey sub tr pt none)
        ⟨processStrict sub tr pt ch, normTok a⟩ c)
      = some ⟨⟨processStrict sub tr pt ch, normTok a⟩, now1⟩ :=
    assocFind_setCachedResponse_self now1 _ _ c
  have hval : isCacheValid now2
      (⟨⟨processStrict sub tr pt ch, normTok a⟩, now1⟩ : CacheEntry) = true := by
    unfold isCacheValid
    simpa using httl
  have hlook2 : getCachedResponse now2 (createCacheKey sub tr pt none)
      (setCachedResponse now1 (createCacheKey sub tr pt none)
        ⟨processStrict sub tr pt ch, normTok a⟩ c)
      = (some ⟨processStrict sub tr pt ch, normTok a⟩,
         setCachedResponse now1 (createCacheKey sub tr pt none)
           ⟨processStrict sub tr pt ch, normTok a⟩ c) := by
    unfold getCachedResponse
    rw [hfind2]
    simp [hval]
  have h2 : fetchExtendedWallpapers net now2 [sub] [tr] pt lim aftNoneW
      (setCachedResponse now1 (createCacheKey sub tr pt none)
        ⟨processStrict sub tr pt ch, normTok a⟩ c)
      = (⟨sortByScoreDesc (dedupById (processStrict sub tr pt ch)),
          [(afterKey sub tr, normTok a)]⟩,
         setCachedResponse now1 (createCacheKey sub tr pt none)
           ⟨processStrict sub tr pt ch, normTok a⟩ c,
         [Event.cacheRead (createCacheKey sub tr pt none)]) := by
    simp [fetchExtendedWallpapers, hsrc, runTasks, runTask, htokn,
      hlook2, allImagesOf, buildAfterMap, mapSet]
  rw [h1]
  constructor
  · rw [h2]
  · intro r
    rw [h2]
    simp

/-- Concrete instantiation of `c5_first_page_cache_idempotence`: a first
call at time 0 and a second call at time 1 on the returned cache. -/
theorem c5_first_page_cache_idempotence_witness :
    ((fetchExtendedWallpapers netW 1 [("a")] [("d")] ("top") 50 aftNoneW
        (fetchExtendedWallpapers netW 0 [("a")] [("d")] ("top") 50 aftNoneW []).2.1).1.images
      = (fetchExtendedWallpapers netW 0 [("a")] [("d")] ("top") 50 aftNoneW []).1.images) ∧
    (∀ r : Request, Event.netRequest r ∉
      (fetchExtendedWallpapers netW 1 [("a")] [("d")] ("top") 50 aftNoneW
        (fetchExtendedWallpapers netW 0 [("a")] [("d")] ("top") 50 aftNoneW
          []).2.1).2.2) :=
  c5_first_page_cache_idempotence netW 0 1 ("a") ("d") ("top") 50 []
    [postW ("x") 1, postW ("y") 5, postW ("x") 9] none rfl rfl (by decide)
